import Mathlib

set_option maxHeartbeats 1000000
set_option linter.unusedVariables false

/-- Tree node as built by gitlabber: an anytree `Node` carrying the attributes the
code sets (`name`, `type`, `url`, `root_path`, and the optional `default_branch`
and `protected_branches` attributes, present only when the builder attaches them),
together with its ordered list of children. -/
structure GNode where
  name : String
  type : String
  url : String
  root_path : String
  default_branch : Option String
  protected_branches : Option (List String)
  children : List GNode

/-- Filter configuration of `GitlabTree`: `self.includes`, `self.excludes`, and the
third-party glob matcher `globre.match(pattern, path)` abstracted as a Boolean
function (its exact glob dialect is out of scope per the spec). -/
structure FilterCfg where
  includes : List String
  excludes : List String
  gmatch : String → String → Bool

/-- Embeds `GitlabTree.is_included`: true when `self.includes` is empty, else true
iff some include pattern glob-matches `node.root_path`. -/
def is_included (cfg : FilterCfg) (node : GNode) : Bool :=
  if cfg.includes.isEmpty then true
  else cfg.includes.any fun inc => cfg.gmatch inc node.root_path

/-- Embeds `GitlabTree.is_excluded`: false when `self.excludes` is empty, else true
iff some exclude pattern glob-matches `node.root_path`. -/
def is_excluded (cfg : FilterCfg) (node : GNode) : Bool :=
  if cfg.excludes.isEmpty then false
  else cfg.excludes.any fun exc => cfg.gmatch exc node.root_path

/-- Embeds the child-processing loop of `GitlabTree.filter_tree` (gitlab_tree.py
lines 159-167), functionally: for each child of the parent, if the child is not a
leaf, first filter its subtree; if it has thereby become a leaf, detach it when
`not is_included(child) or is_excluded(child)`; a child that was already a leaf is
tested directly with the same condition. Detaching (`child.parent = None`) is
modelled by dropping the child from the returned list; anytree's `children`
property yields a snapshot tuple, so detaching during the loop does not perturb
iteration, matching this list traversal. -/
def filterChildren (cfg : FilterCfg) : List GNode → List GNode
  | [] => []
  | GNode.mk n t u rp db pb ccs :: cs =>
    (if ccs.isEmpty then
      (if !(is_included cfg (GNode.mk n t u rp db pb ccs))
          || is_excluded cfg (GNode.mk n t u rp db pb ccs) then []
       else [GNode.mk n t u rp db pb ccs])
     else
      (let fcs := filterChildren cfg ccs
       if fcs.isEmpty then
         (if !(is_included cfg (GNode.mk n t u rp db pb fcs))
             || is_excluded cfg (GNode.mk n t u rp db pb fcs) then []
          else [GNode.mk n t u rp db pb fcs])
       else [GNode.mk n t u rp db pb fcs]))
    ++ filterChildren cfg cs

/-- Embeds `GitlabTree.filter_tree(parent)` as a whole: the parent node itself is
never judged; only its descendant chain is pruned in place. -/
def filterTree (cfg : FilterCfg) : GNode → GNode
  | GNode.mk n t u rp db pb cs => GNode.mk n t u rp db pb (filterChildren cfg cs)

/-- Semantics of Python `s.startswith(pre)`, over the character list of the
string (Lean's byte-position-based `String.startsWith` computes the same value). -/
def pyStartswith (s pre : String) : Bool :=
  pre.data.isPrefixOf s.data

/-- Semantics of Python `s.replace(old, new)` for the single-character arguments
the code uses (`branch.replace('/', '-')`): replace every occurrence. -/
def pyReplaceChar (s : String) (old new : Char) : String :=
  String.mk (s.data.map fun c => if c = old then new else c)

/-- Splitting a character list at every occurrence of a separator character,
keeping empty segments, as Python `str.split(sep)` does. -/
def splitChars (sep : Char) : List Char → List (List Char)
  | [] => [[]]
  | c :: cs =>
    let r := splitChars sep cs
    if c = sep then [] :: r else (c :: r.headI) :: r.tail

/-- Semantics of Python `s.split(',')` as used for the raw git-options string. -/
def pySplitComma (s : String) : List String :=
  (splitChars ',' s.data).map String.mk

/-- Embeds git.py `GitAction`: the per-leaf unit of sync work. `git_options` keeps
its source default of `None` (modelled as `none`). -/
structure GitAction where
  node : GNode
  path : String
  recursive : Bool
  use_fetch : Bool
  hide_token : Bool
  git_options : Option String

/-- Embeds the loop body of git.py `get_git_actions(root, dest, ...)` over
`root.children`: a leaf child yields one `GitAction` at `dest + child.root_path`
(constructed, as in the source, without a `git_options` argument, so it defaults
to `None`); a non-leaf child contributes the actions of its own subtree. The
`os.makedirs` side effect is filesystem-only and not part of the returned value. -/
def gga_children (dest : String) (recursive use_fetch hide_token : Bool) :
    List GNode → List GitAction
  | [] => []
  | GNode.mk n t u rp db pb ccs :: cs =>
    (if ccs.isEmpty then
      [GitAction.mk (GNode.mk n t u rp db pb ccs) (dest ++ rp)
        recursive use_fetch hide_token none]
     else [])
    ++ (if !ccs.isEmpty then gga_children dest recursive use_fetch hide_token ccs else [])
    ++ gga_children dest recursive use_fetch hide_token cs

/-- Embeds git.py `get_git_actions` at its entry point (iterates `root.children`). -/
def get_git_actions (root : GNode) (dest : String)
    (recursive use_fetch hide_token : Bool) : List GitAction :=
  gga_children dest recursive use_fetch hide_token root.children

/-- Embeds the action-list derivation of git.py `sync_tree`: although the function
accepts a `git_options` parameter, its call to `get_git_actions` does not forward
it (as in the source, line 58), so the parameter is unused here. -/
def sync_tree_actions (root : GNode) (dest : String)
    (recursive use_fetch hide_token : Bool) (git_options : Option String) :
    List GitAction :=
  get_git_actions root dest recursive use_fetch hide_token

/-- Embeds `GitlabTree.sync_tree`: the call to git.py `sync_tree` (gitlab_tree.py
lines 422-424) passes concurrency, progress, recursive, use_fetch and hide_token
but omits `git_options`, so that argument defaults to `None` even when the user
configured one (`self.git_options` is never forwarded). -/
def gitlabTree_sync_tree_actions (root : GNode) (dest : String)
    (recursive use_fetch hide_token : Bool) (self_git_options : Option String) :
    List GitAction :=
  sync_tree_actions root dest recursive use_fetch hide_token none

/-- Embeds the `multi_options` assembly in git.py `clone_or_pull_project` (lines
197-203): a recursive-submodule flag when `recursive`, a mirror flag when
`use_fetch`, then the comma-split of a truthy `git_options` string (Python
`if action.git_options:` treats `None` and the empty string as falsy). -/
def multi_options (action : GitAction) : List String :=
  (if action.recursive then ["--recursive"] else [])
  ++ (if action.use_fetch then ["--mirror"] else [])
  ++ (match action.git_options with
      | some s => if s = "" then [] else pySplitComma s
      | none => [])

/-- One VCS operation requested by an action, as observable through the
capability interface of spec section 6. -/
inductive SyncOp where
  | pull
  | fetch
  | submoduleUpd
  | clone (options : List String)
deriving DecidableEq

/-- Result of the one blocking VCS call an action performs: success, an
arbitrary raised error, or a KeyboardInterrupt raised during the call. -/
inductive VcsOutcome where
  | ok
  | err
  | interrupt
deriving DecidableEq

/-- What one run of `clone_or_pull_project` does: either the action completes
(`done ops failed worktrees` records the VCS operations it attempted, whether an
error was logged, and whether protected-branch worktree reconciliation ran in the
`else:` block), or the whole process exits via `sys.exit` with the given code. -/
inductive StepResult where
  | done (ops : List SyncOp) (failed : Bool) (worktrees : Bool)
  | exit (code : Nat)
deriving DecidableEq

/-- The update-branch operations (git.py lines 175-180): pull or fetch the origin
remote, then a recursive submodule update when `recursive`. -/
def updateOps (action : GitAction) : List SyncOp :=
  [if action.use_fetch then SyncOp.fetch else SyncOp.pull]
  ++ (if action.recursive then [SyncOp.submoduleUpd] else [])

/-- Embeds git.py `clone_or_pull_project`. `isRepo` is the `is_git_repo(action.path)`
test, `outcome` the behaviour of the blocking VCS call. Update branch: pull/fetch
plus optional submodule update; `KeyboardInterrupt` runs `sys.exit(0)`; any other
exception is logged and the action returns failed; on success the `else:` block
reconciles protected-branch worktrees. Clone branch: a non-`project` node returns
after a debug note, doing nothing; otherwise `git.Repo.clone_from` is called with
`multi_options`, with the same interrupt and error handling. -/
def clone_or_pull_project (isRepo : Bool) (action : GitAction)
    (outcome : VcsOutcome) : StepResult :=
  if isRepo then
    match outcome with
    | VcsOutcome.interrupt => StepResult.exit 0
    | VcsOutcome.err => StepResult.done (updateOps action) true false
    | VcsOutcome.ok => StepResult.done (updateOps action) false true
  else
    if action.node.type ≠ "project" then
      StepResult.done [] false false
    else
      match outcome with
      | VcsOutcome.interrupt => StepResult.exit 0
      | VcsOutcome.err => StepResult.done [SyncOp.clone (multi_options action)] true false
      | VcsOutcome.ok => StepResult.done [SyncOp.clone (multi_options action)] false true

/-- One scheduled action together with its environment: whether its destination
already holds a valid repository, and how its blocking VCS call behaves. -/
structure PendingAction where
  action : GitAction
  isRepo : Bool
  outcome : VcsOutcome

/-- Sequential execution of the derived action list (the default concurrency of 1;
spec section 5). Returns the per-completed-action failure flags and, when some
action called `sys.exit`, the exit code; actions after an exit never run. -/
def runActions : List PendingAction → List Bool × Option Nat
  | [] => ([], none)
  | p :: ps =>
    match clone_or_pull_project p.isRepo p.action p.outcome with
    | StepResult.exit c => ([], some c)
    | StepResult.done _ failed _ =>
      let r := runActions ps
      (failed :: r.1, r.2)

/-- Embeds git.py `list_branches_matching_patterns`: over the repository's
reference names, keep those starting with "origin/", strip that prefix, and keep
the stripped name when it fnmatch-matches at least one pattern (the inner loop
`break`s after the first matching pattern, appending the branch once, which this
`filterMap` reproduces). `fnm branch pattern` abstracts Python
`fnmatch.fnmatch(branch_name, pattern)`. -/
def list_branches_matching_patterns (fnm : String → String → Bool)
    (references : List String) (patterns : List String) : List String :=
  references.filterMap fun ref =>
    if pyStartswith ref "origin/" then
      let branch_name := ref.drop 7
      if patterns.any (fun pattern => fnm branch_name pattern) then some branch_name
      else none
    else none

/-- The value git.py line 141 compares each branch against: `git.HEAD.name`, an
attribute of the GitPython module-level `HEAD` reference class, whose name is the
literal symbolic reference name "HEAD" — it is not the name of the repository's
currently checked-out branch (which would be `repo.active_branch.name`). -/
def gitHEADRefName : String := "HEAD"

/-- One worktree reconciliation effect: pull an existing sibling checkout in
place, or add a new worktree for a branch at a path. -/
inductive WtOp where
  | update (path : String)
  | create (path : String) (branch : String)
deriving DecidableEq

/-- Embeds git.py `create_or_update_worktrees` as the list of worktree effects it
issues: each branch equal to `git.HEAD.name` is skipped; otherwise the sibling
path `os.path.join(repo.working_tree_dir, os.path.pardir, branch.replace('/', '-'))`
is pulled when it already exists and created as a new worktree otherwise.
`pathDoesExist` abstracts `os.path.exists`. -/
def create_or_update_worktrees (pathDoesExist : String → Bool)
    (working_tree_dir : String) (branches : List String) : List WtOp :=
  branches.filterMap fun branch =>
    if branch = gitHEADRefName then none
    else
      let path := working_tree_dir ++ "/../" ++ pyReplaceChar branch '/' '-'
      if pathDoesExist path then some (WtOp.update path)
      else some (WtOp.create path branch)

/-- Embeds git.py `create_or_update_protected_branch_worktrees`: nothing happens
when the node carries no `protected_branches` attribute or an empty/None value
(Python truthiness); otherwise the patterns are resolved against the remote
references and the worktrees reconciled. -/
def create_or_update_protected_branch_worktrees
    (fnm : String → String → Bool) (pathDoesExist : String → Bool)
    (working_tree_dir : String) (references : List String)
    (node : GNode) : List WtOp :=
  match node.protected_branches with
  | none => []
  | some pbs =>
    if pbs.isEmpty then []
    else
      create_or_update_worktrees pathDoesExist working_tree_dir
        (list_branches_matching_patterns fnm references pbs)

/-- Python `sep.join(parts)` semantics, used to model `"/".join(parts)` in
`GitlabTree.root_path`. -/
def strJoin (sep : String) : List String → String
  | [] => ""
  | [x] => x
  | x :: xs => x ++ sep ++ strJoin sep xs

/-- Python truthiness of the `default_branch` argument in `GitlabTree.root_path`
and `make_node`: `None` and the empty string are falsy. -/
def branchParts : Option String → List String
  | some b => if b = "" then [] else [b]
  | none => []

/-- Embeds `GitlabTree.root_path(node, default_branch)`: joins the names of every
node on `node.path` (the live ancestor chain from the root, whose name is "",
down to the node itself) with "/", appending the default branch when truthy.
`pathNames` is that chain of names, node included. -/
def root_path (pathNames : List String) (default_branch : Option String) : String :=
  strJoin "/" (pathNames ++ branchParts default_branch)

/-- Embeds `GitlabTree.make_node`: creates the anytree node under its parent and
computes `root_path` once, at creation, from the live ancestor chain
(`ancestorNames` = names from the root down to the parent). The `default_branch`
and `protected_branches` attributes are set only when truthy, as in the source. -/
def make_node (ancestorNames : List String) (type name url : String)
    (default_branch : Option String) (protected_branches : Option (List String)) :
    GNode :=
  GNode.mk name type url
    (root_path (ancestorNames ++ [name]) default_branch)
    (match default_branch with
     | some b => if b = "" then none else some b
     | none => none)
    (match protected_branches with
     | some pbs => if pbs.isEmpty then none else some pbs
     | none => none)
    []

/-- A node object of the exported dictionary representation produced by anytree's
`DictExporter` (printed as YAML by `print_tree_yaml` / as JSON by
`print_tree_json`, both assumed-correct serializations of the same dictionary):
every node attribute is exported, `children` recursively. -/
structure DictNode where
  name : String
  type : String
  url : String
  root_path : String
  default_branch : Option String
  protected_branches : Option (List String)
  children : List DictNode

/-- Export of a list of children by anytree's `DictExporter`. -/
def exportList : List GNode → List DictNode
  | [] => []
  | GNode.mk n t u rp db pb ccs :: cs =>
    DictNode.mk n t u rp db pb (exportList ccs) :: exportList cs

/-- Embeds `print_tree_yaml` / `print_tree_json` up to the assumed-correct
serialization layer: the exported dictionary of the whole tree. -/
def exportTreeDict : GNode → DictNode
  | GNode.mk n t u rp db pb cs => DictNode.mk n t u rp db pb (exportList cs)

/-- Import of a list of children by anytree's `DictImporter` (each dictionary
entry becomes a `Node(**attrs)`, all stored attributes restored verbatim). -/
def importList : List DictNode → List GNode
  | [] => []
  | DictNode.mk n t u rp db pb ccs :: cs =>
    GNode.mk n t u rp db pb (importList ccs) :: importList cs

/-- Embeds `load_file_tree` up to the assumed-correct YAML parsing layer:
`DictImporter().import_(dct)` rebuilds the tree from the stored dictionary,
restoring every stored attribute (`root_path` included) verbatim. -/
def load_file_tree : DictNode → GNode
  | DictNode.mk n t u rp db pb cs => GNode.mk n t u rp db pb (importList cs)

/-- Checks that every node of a children list carries the `root_path` that
`GitlabTree.root_path` would recompute from the live ancestor chain (`chain` =
names from the root down to the parent): the builder invariant. -/
def pathsRecomputed (chain : List String) : List GNode → Bool
  | [] => true
  | GNode.mk n _ _ rp db _ ccs :: cs =>
    (rp = root_path (chain ++ [n]) db)
    && pathsRecomputed (chain ++ [n]) ccs
    && pathsRecomputed chain cs

/-- The spec's inclusion predicate, stated from the spec's words: the
include-pattern list is empty or at least one include pattern glob-matches the
node's root path. -/
def specIncluded (cfg : FilterCfg) (rp : String) : Prop :=
  cfg.includes = [] ∨ ∃ pat ∈ cfg.includes, cfg.gmatch pat rp = true

/-- The spec's exclusion predicate, stated from the spec's words: some exclude
pattern glob-matches the node's root path. -/
def specExcluded (cfg : FilterCfg) (rp : String) : Prop :=
  ∃ pat ∈ cfg.excludes, cfg.gmatch pat rp = true

/-- The spec's effective keep rule, as a Boolean: included AND NOT excluded. -/
def specKeep (cfg : FilterCfg) (rp : String) : Bool :=
  (cfg.includes.isEmpty || cfg.includes.any fun pat => cfg.gmatch pat rp)
  && !(cfg.excludes.any fun pat => cfg.gmatch pat rp)

/-- Filter configuration used by the concrete witnesses: no include patterns,
one exclude pattern "/g/x", literal equality as the glob matcher. -/
def cfgW : FilterCfg := FilterCfg.mk [] ["/g/x"] fun pat s => pat == s

def leafW : GNode := GNode.mk "x" "project" "u" "/g/x" none none []

def grpW : GNode := GNode.mk "g" "group" "u" "/g" none none [leafW]

def leafW2 : GNode := GNode.mk "y" "project" "u" "/g/y" none none []

/-- A group whose own root path is excluded by `cfgW` but which owns a surviving
project leaf. -/
def grpW2 : GNode :=
  GNode.mk "x" "group" "u" "/g/x" none none
    [GNode.mk "p" "project" "u" "/g/x/p" none none []]

def emptyGroupNode : GNode := GNode.mk "g" "group" "http://x/g" "/g" none none []

def emptyGroupAction : GitAction :=
  GitAction.mk emptyGroupNode "/dest/g" false false false none

def c3Project : GNode := GNode.mk "p" "project" "git@host:g/p.git" "/g/p" none none []

def c3Group : GNode := GNode.mk "g" "group" "http://host/g" "/g" none none [c3Project]

def c3Root : GNode := GNode.mk "" "root" "http://host" "" none none [c3Group]

/-- A Tree-Builder-shaped tree with consistent root paths, used as the round-trip
witness input. -/
def c4Tree : GNode :=
  GNode.mk "" "root" "http://host" "" none none
    [GNode.mk "g" "group" "http://host/g" "/g" none none
      [GNode.mk "p" "project" "git@host:g/p.git" "/g/p" none none []]]

def c6ProjAction : GitAction := GitAction.mk c3Project "/dest/g/p" false false false none

/-- An update action whose pull raises KeyboardInterrupt. -/
def cexPending : PendingAction := PendingAction.mk c6ProjAction true VcsOutcome.interrupt

/-- An update action whose pull raises an ordinary error. -/
def errPending : PendingAction := PendingAction.mk c6ProjAction true VcsOutcome.err

/-- An update action whose pull succeeds. -/
def okPending : PendingAction := PendingAction.mk c6ProjAction true VcsOutcome.ok

/-- Literal-equality stand-in for `fnmatch.fnmatch(branch_name, pattern)` in the
concrete protected-branch scenario (no wildcard needed there). -/
def fnmW : String → String → Bool := fun branch pattern => branch == pattern

/-- Reference names of the concrete repository: a local branch "main" (the
checked-out HEAD branch) and two remote-tracking branches. -/
def c5refs : List String := ["main", "origin/main", "origin/release/1.0"]

/-- A project node carrying protected-branch patterns naming both remote
branches; the repository's current HEAD branch is "main". -/
def c5node : GNode :=
  GNode.mk "p" "project" "git@host:g/p.git" "/g/p" none
    (some ["main", "release/1.0"]) []

theorem is_included_eq (cfg : FilterCfg) (node : GNode) :
    is_included cfg node
      = (cfg.includes.isEmpty || cfg.includes.any fun pat => cfg.gmatch pat node.root_path) := by
  unfold is_included
  cases h : cfg.includes.isEmpty <;> simp [h]

theorem is_excluded_eq (cfg : FilterCfg) (node : GNode) :
    is_excluded cfg node = (cfg.excludes.any fun pat => cfg.gmatch pat node.root_path) := by
  unfold is_excluded
  cases h : cfg.excludes.isEmpty <;> simp [h]
  simp [List.isEmpty_iff] at h
  simp [h]

/-- The detach condition in filter_tree (`not is_included or is_excluded`) is the
negation of the spec's keep rule. -/
theorem detach_eq_not_specKeep (cfg : FilterCfg) (node : GNode) :
    (!(is_included cfg node) || is_excluded cfg node) = !specKeep cfg node.root_path := by
  rw [is_included_eq, is_excluded_eq]
  unfold specKeep
  cases cfg.includes.isEmpty || cfg.includes.any fun pat => cfg.gmatch pat node.root_path <;>
    cases cfg.excludes.any fun pat => cfg.gmatch pat node.root_path <;> rfl

theorem specKeep_iff (cfg : FilterCfg) (rp : String) :
    specKeep cfg rp = true ↔ (specIncluded cfg rp ∧ ¬ specExcluded cfg rp) := by
  unfold specKeep specIncluded specExcluded
  simp [List.isEmpty_iff, List.any_eq_true]

/-- Restatement of the filter loop over one child, in terms of the spec's keep
rule: the workhorse equation for the filtering claims. -/
theorem filterChildren_cons (cfg : FilterCfg) (c : GNode) (cs : List GNode) :
    filterChildren cfg (c :: cs)
      = (if c.children.isEmpty then
          (if specKeep cfg c.root_path then [c] else [])
         else
          (if (filterTree cfg c).children.isEmpty then
            (if specKeep cfg c.root_path then [filterTree cfg c] else [])
           else [filterTree cfg c]))
        ++ filterChildren cfg cs := by
  obtain ⟨n, t, u, rp, db, pb, ccs⟩ := c
  rw [filterChildren]
  have h1 := detach_eq_not_specKeep cfg (GNode.mk n t u rp db pb ccs)
  have h2 := detach_eq_not_specKeep cfg (GNode.mk n t u rp db pb (filterChildren cfg ccs))
  simp only [h1, h2, filterTree]
  cases h : specKeep cfg rp <;> simp [h]

/-- Claim C2: filter_tree is depth-first post-order: a non-leaf child's subtree is
filtered first, and if the child has thereby become a leaf (all of its children
were pruned), the keep rule is then re-applied to the child itself and it is
detached if it fails; a child that was already a leaf is tested directly, without
recursing into it. -/
theorem claim_C2 (cfg : FilterCfg) (c : GNode) (cs : List GNode) :
    (c.children = [] →
      filterChildren cfg (c :: cs)
        = (if specKeep cfg c.root_path then [c] else []) ++ filterChildren cfg cs)
  ∧ (c.children ≠ [] →
      filterChildren cfg (c :: cs)
        = (if (filterTree cfg c).children.isEmpty
           then (if specKeep cfg c.root_path then [filterTree cfg c] else [])
           else [filterTree cfg c]) ++ filterChildren cfg cs) := by
  constructor
  · intro h
    rw [filterChildren_cons]
    simp [h]
  · intro h
    rw [filterChildren_cons]
    have hne : c.children.isEmpty = false := by simp [List.isEmpty_iff, h]
    simp only [hne, Bool.false_eq_true, if_false]

theorem claim_C2_witness :
    (leafW.children = []
      ∧ filterChildren cfgW (leafW :: [])
          = (if specKeep cfgW leafW.root_path then [leafW] else [])
            ++ filterChildren cfgW [])
  ∧ (grpW.children ≠ []
      ∧ filterChildren cfgW (grpW :: [])
          = (if (filterTree cfgW grpW).children.isEmpty
             then (if specKeep cfgW grpW.root_path then [filterTree cfgW grpW] else [])
             else [filterTree cfgW grpW]) ++ filterChildren cfgW []) :=
  ⟨⟨rfl, (claim_C2 cfgW leafW []).1 rfl⟩,
   ⟨List.cons_ne_nil _ _, (claim_C2 cfgW grpW []).2 (List.cons_ne_nil _ _)⟩⟩

/-- Claim C7: a leaf whose kind is not project (an empty group or subgroup) and
whose destination path is not already a valid local repository triggers no clone
and no other VCS operation: the action returns after a debug note, unfailed,
without worktree reconciliation. -/
theorem claim_C7 (action : GitAction) (outcome : VcsOutcome) :
    action.node.type ≠ "project" →
    clone_or_pull_project false action outcome = StepResult.done [] false false := by
  intro h
  simp [clone_or_pull_project, h]

theorem claim_C7_witness :
    emptyGroupAction.node.type ≠ "project"
  ∧ clone_or_pull_project false emptyGroupAction VcsOutcome.ok
      = StepResult.done [] false false :=
  ⟨by decide, claim_C7 emptyGroupAction VcsOutcome.ok (by decide)⟩

/-- Claim C3 evaluated at a failing input: with the user-supplied git-options
string "--depth=1" configured, a sync run derives exactly one clone action for the
project leaf, yet that action carries no git options (`GitlabTree.sync_tree` never
forwards `self.git_options` to git.py `sync_tree`, and `get_git_actions` never
forwards the parameter to `GitAction` either), so the clone's option list is
empty instead of containing "--depth=1". -/
theorem claim_C3 :
    (gitlabTree_sync_tree_actions c3Root "/dest" false false false (some "--depth=1")).map
        (fun a => (a.git_options, multi_options a))
      = [(none, [])] := by
  simp [gitlabTree_sync_tree_actions, sync_tree_actions, get_git_actions,
    gga_children, c3Root, c3Group, c3Project, multi_options]

theorem filterTree_root_path (cfg : FilterCfg) (c : GNode) :
    (filterTree cfg c).root_path = c.root_path := by
  obtain ⟨n, t, u, rp, db, pb, ccs⟩ := c
  rfl

theorem filterTree_children (cfg : FilterCfg) (c : GNode) :
    (filterTree cfg c).children = filterChildren cfg c.children := by
  obtain ⟨n, t, u, rp, db, pb, ccs⟩ := c
  rfl

/-- Every leaf present after filtering satisfies the spec's keep rule. -/
theorem leaf_mem_keep (cfg : FilterCfg) (cs : List GNode) (x : GNode)
    (hx : x ∈ filterChildren cfg cs) (hleaf : x.children = []) :
    specKeep cfg x.root_path = true := by
  induction cs with
  | nil => simp [filterChildren] at hx
  | cons c cs ih =>
    rw [filterChildren_cons] at hx
    rcases List.mem_append.mp hx with hh | ht
    · by_cases hc : c.children.isEmpty
      · simp only [hc, if_true] at hh
        by_cases hk : specKeep cfg c.root_path = true
        · simp [hk] at hh
          rw [hh]
          exact hk
        · simp [hk] at hh
      · simp only [hc, if_false, Bool.false_eq_true] at hh
        by_cases hfc : (filterTree cfg c).children.isEmpty
        · by_cases hk : specKeep cfg c.root_path = true
          · simp [hfc, hk] at hh
            rw [hh, filterTree_root_path]
            exact hk
          · simp [hfc, hk] at hh
        · simp [hfc] at hh
          rw [hh] at hleaf
          simp [List.isEmpty_iff, hleaf] at hfc
    · exact ih ht

/-- A leaf child that satisfies the spec's keep rule survives filtering. -/
theorem leaf_keep_mem (cfg : FilterCfg) (cs : List GNode) (c : GNode)
    (hmem : c ∈ cs) (hleaf : c.children = []) (hk : specKeep cfg c.root_path = true) :
    c ∈ filterChildren cfg cs := by
  induction cs with
  | nil => simp at hmem
  | cons d ds ih =>
    rw [filterChildren_cons]
    rcases List.mem_cons.mp hmem with h | h
    · subst h
      have h1 : c.children.isEmpty = true := by simp [List.isEmpty_iff, hleaf]
      simp only [h1, if_true, hk]
      exact List.mem_append_left _ (List.mem_cons_self _ _)
    · exact List.mem_append_right _ (ih h)

/-- Claim C1: for every node judged by the filter, the node is kept iff the
include-pattern list is empty or some include pattern matches its root path, and
no exclude pattern matches it; a node failing this keep rule is detached from its
parent (it is absent from the filtered children), and the root node passed to
filter_tree is itself never detached (its identity attributes survive filtering
unchanged). -/
theorem claim_C1 (cfg : FilterCfg) :
    (∀ t : GNode,
        (filterTree cfg t).name = t.name ∧ (filterTree cfg t).type = t.type
      ∧ (filterTree cfg t).url = t.url ∧ (filterTree cfg t).root_path = t.root_path)
  ∧ (∀ (cs : List GNode) (c : GNode), c.children = [] → c ∈ cs →
      (c ∈ filterChildren cfg cs
        ↔ (specIncluded cfg c.root_path ∧ ¬ specExcluded cfg c.root_path)))
  ∧ (∀ (cs : List GNode) (x : GNode), x ∈ filterChildren cfg cs → x.children = [] →
      (specIncluded cfg x.root_path ∧ ¬ specExcluded cfg x.root_path)) := by
  refine ⟨?_, ?_, ?_⟩
  · intro t
    obtain ⟨n, t, u, rp, db, pb, ccs⟩ := t
    exact ⟨rfl, rfl, rfl, rfl⟩
  · intro cs c hleaf hmem
    rw [← specKeep_iff]
    constructor
    · intro h
      exact leaf_mem_keep cfg cs c h hleaf
    · intro h
      exact leaf_keep_mem cfg cs c hmem hleaf h
  · intro cs x hx hleaf
    exact (specKeep_iff cfg x.root_path).mp (leaf_mem_keep cfg cs x hx hleaf)

theorem claim_C1_witness :
    ((filterTree cfgW grpW).name = grpW.name ∧ (filterTree cfgW grpW).type = grpW.type
      ∧ (filterTree cfgW grpW).url = grpW.url
      ∧ (filterTree cfgW grpW).root_path = grpW.root_path)
  ∧ (leafW2.children = [] ∧ leafW2 ∈ [leafW2]
      ∧ (leafW2 ∈ filterChildren cfgW [leafW2]
          ↔ (specIncluded cfgW leafW2.root_path ∧ ¬ specExcluded cfgW leafW2.root_path)))
  ∧ (leafW2 ∈ filterChildren cfgW [leafW2] ∧ leafW2.children = []
      ∧ (specIncluded cfgW leafW2.root_path ∧ ¬ specExcluded cfgW leafW2.root_path)) := by
  have hi : is_included cfgW (GNode.mk "y" "project" "u" "/g/y" none none []) = true := by
    decide
  have hx : is_excluded cfgW (GNode.mk "y" "project" "u" "/g/y" none none []) = false := by
    decide
  have hmem : leafW2 ∈ filterChildren cfgW [leafW2] := by
    simp [leafW2, filterChildren, hi, hx]
  exact ⟨(claim_C1 cfgW).1 grpW,
    ⟨rfl, List.mem_cons_self _ _,
      (claim_C1 cfgW).2.1 [leafW2] leafW2 rfl (List.mem_cons_self _ _)⟩,
    ⟨hmem, rfl, (claim_C1 cfgW).2.2 [leafW2] leafW2 hmem rfl⟩⟩

/-- Claim C10: filter_tree never detaches a node that still has at least one
child after its own subtree has been filtered: such a node is retained in the
filtered children whatever the include and exclude patterns say about its own
root path. -/
theorem claim_C10 (cfg : FilterCfg) (cs : List GNode) (c : GNode) :
    c ∈ cs → (filterTree cfg c).children ≠ [] →
    filterTree cfg c ∈ filterChildren cfg cs := by
  intro hmem hne
  induction cs with
  | nil => simp at hmem
  | cons d ds ih =>
    rw [filterChildren_cons]
    rcases List.mem_cons.mp hmem with h | h
    · subst h
      have hcne : c.children ≠ [] := by
        intro hc
        apply hne
        rw [filterTree_children, hc]
        simp [filterChildren]
      have h1 : c.children.isEmpty = false := by simp [List.isEmpty_iff, hcne]
      have h2 : (filterTree cfg c).children.isEmpty = false := by
        simp [List.isEmpty_iff, hne]
      simp only [h1, h2, Bool.false_eq_true, if_false]
      exact List.mem_append_left _ (List.mem_cons_self _ _)
    · exact List.mem_append_right _ (ih h)

theorem claim_C10_witness :
    grpW2 ∈ [grpW2] ∧ (filterTree cfgW grpW2).children ≠ []
      ∧ filterTree cfgW grpW2 ∈ filterChildren cfgW [grpW2] := by
  have hi : is_included cfgW (GNode.mk "p" "project" "u" "/g/x/p" none none []) = true := by
    decide
  have hx : is_excluded cfgW (GNode.mk "p" "project" "u" "/g/x/p" none none []) = false := by
    decide
  have hchild : (filterTree cfgW grpW2).children ≠ [] := by
    simp [filterTree_children, grpW2, filterChildren, hi, hx]
  exact ⟨List.mem_cons_self _ _, hchild,
    claim_C10 cfgW [grpW2] grpW2 (List.mem_cons_self _ _) hchild⟩

theorem filterChildren_append (cfg : FilterCfg) (xs ys : List GNode) :
    filterChildren cfg (xs ++ ys) = filterChildren cfg xs ++ filterChildren cfg ys := by
  induction xs with
  | nil => simp [filterChildren]
  | cons x xs ih =>
    rw [List.cons_append, filterChildren_cons, filterChildren_cons, ih, List.append_assoc]

/-- Idempotence of the filter at the children-list level, by strong induction on
the size of the list (the head's grandchildren need the inductive hypothesis). -/
theorem fc_idem_aux (cfg : FilterCfg) :
    ∀ (n : Nat) (cs : List GNode), sizeOf cs ≤ n →
      filterChildren cfg (filterChildren cfg cs) = filterChildren cfg cs := by
  intro n
  induction n with
  | zero =>
    intro cs h
    rcases cs with _ | ⟨c, cs2⟩ <;> simp_arith at h
  | succ n ih =>
    intro cs h
    rcases cs with _ | ⟨c, cs2⟩
    · simp [filterChildren]
    · obtain ⟨nm, t, u, rp, db, pb, ccs⟩ := c
      have hccs : sizeOf ccs ≤ n := by simp_arith at h; omega
      have hcs2 : sizeOf cs2 ≤ n := by simp_arith at h; omega
      rw [filterChildren_cons, filterChildren_append, ih cs2 hcs2]
      congr 1
      by_cases hc : ccs.isEmpty
      · simp only [hc, if_true]
        by_cases hk : specKeep cfg rp = true
        · simp only [hk, if_true]
          rw [filterChildren_cons]
          simp [hc, hk, filterChildren]
        · simp only [hk, if_false]
          simp [filterChildren]
      · simp only [hc, Bool.false_eq_true, if_false]
        have hft : filterTree cfg (GNode.mk nm t u rp db pb ccs)
            = GNode.mk nm t u rp db pb (filterChildren cfg ccs) := rfl
        rw [hft]
        by_cases hf : (filterChildren cfg ccs).isEmpty
        · by_cases hk : specKeep cfg rp = true
          · simp only [hf, hk, if_true]
            rw [filterChildren_cons]
            simp [hf, hk, filterChildren]
          · simp only [hf, hk, if_true, if_false]
            simp [filterChildren]
        · simp only [hf, Bool.false_eq_true, if_false]
          rw [filterChildren_cons]
          have hft2 : filterTree cfg (GNode.mk nm t u rp db pb (filterChildren cfg ccs))
              = GNode.mk nm t u rp db pb
                  (filterChildren cfg (filterChildren cfg ccs)) := rfl
          rw [hft2, ih ccs hccs]
          simp [hf, filterChildren]

/-- Claim C8: filtering is idempotent: applying filter_tree a second time, with
the same include and exclude pattern sets, detaches no further node and yields
the identical tree. -/
theorem claim_C8 (cfg : FilterCfg) (t : GNode) :
    filterTree cfg (filterTree cfg t) = filterTree cfg t := by
  obtain ⟨nm, ty, u, rp, db, pb, cs⟩ := t
  show GNode.mk nm ty u rp db pb (filterChildren cfg (filterChildren cfg cs))
      = GNode.mk nm ty u rp db pb (filterChildren cfg cs)
  rw [fc_idem_aux cfg (sizeOf cs) cs (Nat.le_refl _)]

theorem strJoin_append_singleton (xs : List String) (y : String) (h : xs ≠ []) :
    strJoin "/" (xs ++ [y]) = strJoin "/" xs ++ "/" ++ y := by
  induction xs with
  | nil => cases h rfl
  | cons x xs ih =>
    rcases xs with _ | ⟨x2, xs2⟩
    · simp [strJoin]
    · have ih2 := ih (List.cons_ne_nil x2 xs2)
      simp only [List.cons_append] at ih2 ⊢
      simp [strJoin, ih2, String.append_assoc]

/-- Claim C9: a node created by make_node has a root_path equal to its parent's
root_path (the parent's own chain joined, for a parent without a branch suffix)
joined with "/" and the node's own name, followed by "/" and the resolved default
branch name when the naming strategy supplies a truthy one; the path is computed
once at creation from the live ancestor chain. -/
theorem claim_C9 (ancestorNames : List String) (type name url : String)
    (db : Option String) (pb : Option (List String)) (h : ancestorNames ≠ []) :
    (make_node ancestorNames type name url db pb).root_path
      = root_path ancestorNames none ++ "/" ++ name
        ++ (match db with
            | some b => if b = "" then "" else "/" ++ b
            | none => "") := by
  have h1 : (make_node ancestorNames type name url db pb).root_path
      = root_path (ancestorNames ++ [name]) db := rfl
  have h2 : root_path ancestorNames none = strJoin "/" ancestorNames := by
    simp [root_path, branchParts]
  rw [h1, h2]
  cases db with
  | none =>
    simp only [root_path, branchParts, List.append_nil]
    rw [strJoin_append_singleton ancestorNames name h, String.append_empty]
  | some b =>
    simp only [root_path, branchParts]
    by_cases hb : b = ""
    · rw [if_pos hb, if_pos hb, List.append_nil]
      rw [strJoin_append_singleton ancestorNames name h, String.append_empty]
    · rw [if_neg hb, if_neg hb]
      rw [strJoin_append_singleton (ancestorNames ++ [name]) b (by simp),
          strJoin_append_singleton ancestorNames name h]
      simp [String.append_assoc]

theorem claim_C9_witness :
    (["", "g"] : List String) ≠ []
  ∧ (make_node ["", "g"] "project" "p" "u" (some "main") none).root_path
      = root_path ["", "g"] none ++ "/" ++ "p"
        ++ (match (some "main" : Option String) with
            | some b => if b = "" then "" else "/" ++ b
            | none => "") :=
  ⟨by decide, claim_C9 ["", "g"] "project" "p" "u" (some "main") none (by decide)⟩

theorem ie_aux :
    ∀ (n : Nat) (cs : List GNode), sizeOf cs ≤ n → importList (exportList cs) = cs := by
  intro n
  induction n with
  | zero =>
    intro cs h
    rcases cs with _ | ⟨c, cs2⟩ <;> simp_arith at h
  | succ n ih =>
    intro cs h
    rcases cs with _ | ⟨c, cs2⟩
    · simp [exportList, importList]
    · obtain ⟨nm, t, u, rp, db, pb, ccs⟩ := c
      have hccs : sizeOf ccs ≤ n := by simp_arith at h; omega
      have hcs2 : sizeOf cs2 ≤ n := by simp_arith at h; omega
      rw [exportList, importList, ih ccs hccs, ih cs2 hcs2]

/-- Claim C4: importing the exported dictionary representation of a tree built by
the Tree Builder reconstructs the identical tree (same names, types, urls,
parent-child structure and child order), and on such builder trees every node's
root_path in the reconstructed tree agrees with the value recomputed from the
ancestor chain (the stored and recomputed strings coincide on builder trees). -/
theorem claim_C4 (t : GNode) (h : pathsRecomputed [t.name] t.children = true) :
    load_file_tree (exportTreeDict t) = t
  ∧ pathsRecomputed [(load_file_tree (exportTreeDict t)).name]
      (load_file_tree (exportTreeDict t)).children = true := by
  have hrt : load_file_tree (exportTreeDict t) = t := by
    obtain ⟨nm, ty, u, rp, db, pb, cs⟩ := t
    show GNode.mk nm ty u rp db pb (importList (exportList cs))
        = GNode.mk nm ty u rp db pb cs
    rw [ie_aux (sizeOf cs) cs (Nat.le_refl _)]
  exact ⟨hrt, by rw [hrt]; exact h⟩

theorem claim_C4_witness :
    pathsRecomputed [c4Tree.name] c4Tree.children = true
  ∧ (load_file_tree (exportTreeDict c4Tree) = c4Tree
      ∧ pathsRecomputed [(load_file_tree (exportTreeDict c4Tree)).name]
          (load_file_tree (exportTreeDict c4Tree)).children = true) := by
  have h : pathsRecomputed [c4Tree.name] c4Tree.children = true := by
    simp [c4Tree, pathsRecomputed, root_path, branchParts, strJoin]
  exact ⟨h, claim_C4 c4Tree h⟩

/-- An action whose blocking VCS call does not raise KeyboardInterrupt always
completes (possibly failed); it never exits the process. -/
theorem step_done (r : Bool) (a : GitAction) (o : VcsOutcome)
    (h : o ≠ VcsOutcome.interrupt) :
    ∃ ops failed wt, clone_or_pull_project r a o = StepResult.done ops failed wt := by
  unfold clone_or_pull_project
  cases o with
  | interrupt => exact absurd rfl h
  | ok =>
    cases r
    · simp only [Bool.false_eq_true, if_false]
      by_cases ht : a.node.type ≠ "project"
      · rw [if_pos ht]
        exact ⟨_, _, _, rfl⟩
      · rw [if_neg ht]
        exact ⟨_, _, _, rfl⟩
    · exact ⟨_, _, _, rfl⟩
  | err =>
    cases r
    · simp only [Bool.false_eq_true, if_false]
      by_cases ht : a.node.type ≠ "project"
      · rw [if_pos ht]
        exact ⟨_, _, _, rfl⟩
      · rw [if_neg ht]
        exact ⟨_, _, _, rfl⟩
    · exact ⟨_, _, _, rfl⟩

/-- A KeyboardInterrupt raised inside the try block (update branch, or clone
branch of a project node) makes the action call `sys.exit(0)`. -/
theorem step_interrupt (r : Bool) (a : GitAction)
    (h : r = true ∨ a.node.type = "project") :
    clone_or_pull_project r a VcsOutcome.interrupt = StepResult.exit 0 := by
  unfold clone_or_pull_project
  rcases h with h | h
  · simp [h]
  · cases r
    · simp [h]
    · simp

/-- Claim C6 counterexample: the claim requires the interrupt to abort the run
with an exit status reflecting the fatal condition, i.e. a nonzero status
distinguishable from the all-is-well status of an ordinary run (spec section 7);
but the interrupt handler calls `sys.exit(0)`, so at this input the abort status
is 0 and the required nonzero-status property fails. -/
theorem claim_C6_counterexample :
    ¬ (∀ code : Nat, (runActions [cexPending]).2 = some code → code ≠ 0) := by
  intro hcl
  exact hcl 0 rfl rfl

/-- Claim C6 (amended): a keyboard interrupt raised inside any action's VCS call
aborts the whole run immediately — no later action runs — but with exit status 0
rather than a status reflecting the fatal condition; every other error raised
inside an action is caught at that action's boundary, logged, and leaves all
sibling actions to run to completion. -/
theorem claim_C6 :
    (∀ (pre post : List PendingAction) (p : PendingAction),
      (∀ q ∈ pre, q.outcome ≠ VcsOutcome.interrupt) →
      p.outcome = VcsOutcome.interrupt →
      (p.isRepo = true ∨ p.action.node.type = "project") →
      runActions (pre ++ p :: post) = ((runActions pre).1, some 0))
  ∧ (∀ l : List PendingAction,
      (∀ q ∈ l, q.outcome ≠ VcsOutcome.interrupt) →
      (runActions l).2 = none ∧ (runActions l).1.length = l.length) := by
  constructor
  · intro pre post p
    induction pre with
    | nil =>
      intro hpre hint hreach
      simp only [List.nil_append, runActions, hint,
        step_interrupt p.isRepo p.action hreach]
    | cons q pre2 ih =>
      intro hpre hint hreach
      have hq : q.outcome ≠ VcsOutcome.interrupt := hpre q (List.mem_cons_self _ _)
      have hpre2 : ∀ x ∈ pre2, x.outcome ≠ VcsOutcome.interrupt :=
        fun x hx => hpre x (List.mem_cons_of_mem _ hx)
      obtain ⟨ops, failed, wt, hstep⟩ := step_done q.isRepo q.action q.outcome hq
      simp only [List.cons_append, runActions, hstep, List.append_eq]
      rw [ih hpre2 hint hreach]
  · intro l
    induction l with
    | nil =>
      intro hl
      simp [runActions]
    | cons q l2 ih =>
      intro hl
      have hq : q.outcome ≠ VcsOutcome.interrupt := hl q (List.mem_cons_self _ _)
      have hl2 : ∀ x ∈ l2, x.outcome ≠ VcsOutcome.interrupt :=
        fun x hx => hl x (List.mem_cons_of_mem _ hx)
      obtain ⟨ops, failed, wt, hstep⟩ := step_done q.isRepo q.action q.outcome hq
      obtain ⟨h1, h2⟩ := ih hl2
      simp only [runActions, hstep]
      simp [h1, h2]

theorem claim_C6_witness :
    ((∀ q ∈ [errPending], q.outcome ≠ VcsOutcome.interrupt)
      ∧ cexPending.outcome = VcsOutcome.interrupt
      ∧ (cexPending.isRepo = true ∨ cexPending.action.node.type = "project")
      ∧ runActions ([errPending] ++ cexPending :: [okPending])
          = ((runActions [errPending]).1, some 0))
  ∧ ((∀ q ∈ [errPending, okPending], q.outcome ≠ VcsOutcome.interrupt)
      ∧ (runActions [errPending, okPending]).2 = none
      ∧ (runActions [errPending, okPending]).1.length = [errPending, okPending].length) := by
  have h1 : ∀ q ∈ [errPending], q.outcome ≠ VcsOutcome.interrupt := by
    intro q hq
    simp only [List.mem_singleton] at hq
    subst hq
    decide
  have h2 : ∀ q ∈ [errPending, okPending], q.outcome ≠ VcsOutcome.interrupt := by
    intro q hq
    simp only [List.mem_cons, List.mem_singleton, List.not_mem_nil, or_false] at hq
    rcases hq with rfl | rfl <;> decide
  refine ⟨⟨h1, rfl, Or.inl rfl, claim_C6.1 [errPending] [okPending] cexPending h1 rfl (Or.inl rfl)⟩,
    ⟨h2, (claim_C6.2 [errPending, okPending] h2).1, (claim_C6.2 [errPending, okPending] h2).2⟩⟩

/-- Claim C5 evaluated at a failing input: the repository's current HEAD branch is
"main" and both "main" and "release/1.0" match the node's protected-branch
patterns (exactly the remote-tracking names with "origin/" stripped — the local
ref "main" without the prefix is ignored). The claim requires the HEAD branch
"main" to be skipped, but the code compares each branch against GitPython's
static `git.HEAD.name` ("HEAD"), not against the repository's checked-out branch,
so a worktree is created for "main" as well; the sibling paths replace "/" with
"-" and a fresh path yields a create rather than a pull. -/
theorem claim_C5 :
    create_or_update_protected_branch_worktrees fnmW (fun _ => false) "/dest/g/p"
        c5refs c5node
      = [WtOp.create "/dest/g/p/../main" "main",
         WtOp.create "/dest/g/p/../release-1.0" "release/1.0"] := by
  decide
